import Mathlib

/-!
Shallow embedding of the pill-sync-bot reminder core (src/app.py).

Modelling conventions:
* Instants are integers counting minutes since an epoch; a timezone is its
  fixed offset from UTC in minutes (the code's `ZoneInfo` objects are opaque
  here; `astimezone` adds the offset).  The sweep compares `now_local` with a
  whole-minute schedule, so flooring real time to minutes preserves every
  comparison the code makes.
* A local calendar date is the floor-division of a local minute count by 1440;
  two `"%Y-%m-%d"` strings produced by `strftime` are equal exactly when the
  underlying dates are, so dates are kept as integers.
* `last_reminder_time` is stored by the code as a string and re-parsed with
  `datetime.fromisoformat`; `LastRem.iso t` stands for the round-tripping
  output of `now_local.isoformat()` (wall-clock minutes `t`), `LastRem.garbage`
  for any string `fromisoformat` rejects.
* DynamoDB persistence is modelled by returning the record that `put_item`
  would store together with a flag saying whether a write happened.
-/

namespace PillSync

/-- Split a character list at every `':'`, mirroring what
`datetime.strptime(s, "%H:%M")` does to locate the two numeric fields. -/
def splitCols : List Char → List (List Char)
  | [] => [[]]
  | c :: rest =>
    let r := splitCols rest
    if c = ':' then [] :: r
    else
      match r with
      | [] => [[c]]
      | p :: ps => (c :: p) :: ps

/-- Numeric value of a non-empty all-digit character list, `none` otherwise. -/
def digitsVal (cs : List Char) : Option Nat :=
  if cs.isEmpty then none
  else if cs.all (fun c => 48 ≤ c.toNat && c.toNat ≤ 57) then
    some (cs.foldl (fun acc c => 10 * acc + (c.toNat - 48)) 0)
  else none

/-- `datetime.strptime(med_time, "%H:%M").time()` from `send_reminders_async`:
one or two digits for the hour (0–23), a literal colon, one or two digits for
the minute (0–59), nothing else.  Returns `none` exactly when the code's
`strptime` raises and the entry is skipped. -/
def parseHM (s : String) : Option (Nat × Nat) :=
  match splitCols s.data with
  | [hs, ms] =>
    if hs.length ≤ 2 && ms.length ≤ 2 then
      match digitsVal hs, digitsVal ms with
      | some h, some m => if h ≤ 23 && m ≤ 59 then some (h, m) else none
      | _, _ => none
    else none
  | _ => none

/-- Python's `str.lower()` as used for name and username matching (ASCII
case-folding suffices for the comparisons the code performs). -/
def lowerStr (s : String) : String := String.mk (s.data.map Char.toLower)

/-- A stored `last_reminder_time` string: either the output of
`now_local.isoformat()` for local wall-clock minute `t` (which
`datetime.fromisoformat` parses back), or an unparseable string. -/
inductive LastRem where
  | iso (t : Int)
  | garbage (s : String)
deriving DecidableEq, Repr

/-- `datetime.fromisoformat` on a stored stamp: the wall-clock minutes on
success, `none` when the except-branch of `send_reminders_async` fires. -/
def parseLastRem : LastRem → Option Int
  | .iso t => some t
  | .garbage _ => none

/-- Local calendar date (`.date()` / `strftime("%Y-%m-%d")`) of a local
wall-clock minute count. -/
def localDate (t : Int) : Int := t.fdiv 1440

/-- One medication dict: `{"name", "dosage", "times", "acknowledged",
"last_reminder_time"}`.  `acknowledged` is the insertion-ordered dict from
fire-time string to acknowledged local date. -/
structure Medication where
  name : String
  dosage : String
  times : List String
  acknowledged : List (String × Int)
  last_reminder_time : Option LastRem
deriving DecidableEq, Repr

/-- `acknowledged.get(med_time)`. -/
def lookupAck : List (String × Int) → String → Option Int
  | [], _ => none
  | (k, v) :: rest, t => if k = t then some v else lookupAck rest t

/-- `med["acknowledged"][med_time] = today_str`: Python dict assignment keeps
the position of an existing key and appends a fresh one. -/
def setAck : List (String × Int) → String → Int → List (String × Int)
  | [], t, d => [(t, d)]
  | (k, v) :: rest, t, d =>
    if k = t then (t, d) :: rest else (k, v) :: setAck rest t d

/-- One user item of the DynamoDB table. -/
structure UserRec where
  chat_id : String
  timezone : String
  language : String
  medications : List Medication
deriving DecidableEq, Repr

/-- The environment of resolvable IANA timezone names: offset from UTC in
minutes, or `none` when `ZoneInfo(tz_str)` raises. -/
abbrev Zones := String → Option Int

/-- `try: tz = ZoneInfo(tz_str) except: tz = ZoneInfo("UTC")` — the fallback
zone is literally UTC, offset 0. -/
def resolveTz (zones : Zones) (s : String) : Int := (zones s).getD 0

/-- A dispatched reminder at medication level: `(med_name, med_time)` of the
message scheduled through `send_message_with_limit`. -/
abbrev Dispatch := String × String

/-- The tail of one iteration of the inner `for med_time` loop of
`send_reminders_async`, after the acknowledged-today and reminded-today
checks fell through: parse the fire time (`continue` on failure), build
`scheduled_dt` on today's local date, `continue` when `now_local <
scheduled_dt`, otherwise schedule the send and stamp
`med["last_reminder_time"] = now_local.isoformat()`. -/
def fireAttempt (nowLocal today : Int) (med : Medication) (sent : List Dispatch)
    (t : String) : Medication × List Dispatch :=
  match parseHM t with
  | none => (med, sent)
  | some (h, m) =>
    if nowLocal < today * 1440 + ((h : Int) * 60 + (m : Int)) then (med, sent)
    else
      ({ med with last_reminder_time := some (.iso nowLocal) },
       sent ++ [(med.name, t)])

/-- One full iteration of the inner `for med_time` loop of
`send_reminders_async` over the current (possibly already stamped) medication
state: skip when acknowledged today; skip when `last_reminder_time` is
present, parses, and is dated today; otherwise `fireAttempt`. -/
def stepTime (nowLocal today : Int) (acc : Medication × List Dispatch)
    (t : String) : Medication × List Dispatch :=
  if lookupAck acc.1.acknowledged t = some today then acc
  else
    match acc.1.last_reminder_time with
    | some lr =>
      match parseLastRem lr with
      | some v =>
        if localDate v = today then acc
        else fireAttempt nowLocal today acc.1 acc.2 t
      | none => fireAttempt nowLocal today acc.1 acc.2 t
    | none => fireAttempt nowLocal today acc.1 acc.2 t

/-- The `for med_time in med.get("times", [])` loop of `send_reminders_async`
for a single medication: the updated medication dict and the reminders
scheduled for it, in list order. -/
def processMed (nowLocal today : Int) (med : Medication) :
    Medication × List Dispatch :=
  med.times.foldl (stepTime nowLocal today) (med, [])

/-- The body of the `for user in users` loop of `send_reminders_async`, with
the timezone already resolved to offset `off`: compute `now_local` and
`today_str`, run every medication through `processMed`, and report the
post-loop record together with all scheduled reminders (tagged with the
chat id).  `user_modified` is exactly "some reminder was scheduled", since
the only mutation in the loop is the stamp written when a send is scheduled. -/
def processUserTz (off : Int) (nowUtc : Int) (r : UserRec) :
    UserRec × List (String × Dispatch) :=
  let nowLocal := nowUtc + off
  let today := localDate nowLocal
  let p := r.medications.foldl
    (fun acc med =>
      (acc.1 ++ [(processMed nowLocal today med).1],
       acc.2 ++ (processMed nowLocal today med).2.map (fun q => (r.chat_id, q))))
    ([], [])
  ({ r with medications := p.1 }, p.2)

/-- The per-user body of `send_reminders_async` including the timezone
resolution with its UTC fallback. -/
def processUser (zones : Zones) (nowUtc : Int) (r : UserRec) :
    UserRec × List (String × Dispatch) :=
  processUserTz (resolveTz zones r.timezone) nowUtc r

/-- `send_reminders_async` over the scanned user items: the records passed to
`save_user_data` (one `put_item` per user, issued only when `user_modified`)
and every reminder scheduled, in order. -/
def sweep (zones : Zones) (nowUtc : Int) (users : List UserRec) :
    List UserRec × List (String × Dispatch) :=
  users.foldl
    (fun acc u =>
      (acc.1 ++ (if (processUser zones nowUtc u).2.isEmpty then []
                 else [(processUser zones nowUtc u).1]),
       acc.2 ++ (processUser zones nowUtc u).2))
    ([], [])

/-- Spec condition: `last_reminder_time`, when present and parseable, is not
dated today. -/
def notRemindedToday (today : Int) (lr : Option LastRem) : Bool :=
  match lr.bind parseLastRem with
  | some v => !(localDate v == today)
  | none => true

/-- Spec condition: the local now is at or after today's local date at the
fire time's HH:MM (false for a malformed fire time, which has no HH:MM). -/
def schedReached (nowLocal today : Int) (t : String) : Bool :=
  match parseHM t with
  | some (h, m) => decide (today * 1440 + ((h : Int) * 60 + (m : Int)) ≤ nowLocal)
  | none => false

/-- Modelled from the spec's due condition, stated as a flat conjunction: the
acknowledged date for the fire time is not today, `last_reminder_time` (when
present and parseable) is not dated today, and the local now is at or after
today at the fire time's HH:MM. -/
def specDue (nowLocal today : Int) (med : Medication) (t : String) : Bool :=
  !(lookupAck med.acknowledged t == some today) &&
  notRemindedToday today med.last_reminder_time &&
  schedReached nowLocal today t

/-- The acknowledgment condition of `callback_acknowledge`'s loop:
`med.get("name", "").lower() == med_name.lower()` and
`med_time in med.get("times", [])`. -/
def ackMatches (medName medTime : String) (med : Medication) : Prop :=
  lowerStr med.name = lowerStr medName ∧ medTime ∈ med.times

instance (medName medTime : String) (med : Medication) :
    Decidable (ackMatches medName medTime med) :=
  inferInstanceAs (Decidable (_ ∧ _))

/-- The `for med in medications` loop of `callback_acknowledge`: acknowledge
the first medication whose lowercased name equals the lowercased requested
name *and* whose `times` contain the requested fire time; a medication whose
name matches but whose times do not is passed over without a break. -/
def ackLoop (medName medTime : String) (today : Int) :
    List Medication → List Medication × Bool
  | [] => ([], false)
  | med :: rest =>
    if ackMatches medName medTime med then
      ({ med with acknowledged := setAck med.acknowledged medTime today } :: rest,
       true)
    else
      (med :: (ackLoop medName medTime today rest).1,
       (ackLoop medName medTime today rest).2)

/-- The state-changing core of `callback_acknowledge` after the callback data
was split into `med_name` and `med_time`, with the timezone already resolved
to offset `off`: compute today's local date, run the matching loop, and
persist the record only when a medication was found.  The returned record is
the stored state afterwards; the boolean is `found`, which is also exactly
"the record was persisted". -/
def callbackAckTz (off : Int) (nowUtc : Int) (r : UserRec)
    (medName medTime : String) : UserRec × Bool :=
  let today := localDate (nowUtc + off)
  let p := ackLoop medName medTime today r.medications
  if p.2 then ({ r with medications := p.1 }, true) else (r, false)

/-- `callback_acknowledge` including the timezone resolution with its UTC
fallback. -/
def callback_acknowledge (zones : Zones) (nowUtc : Int) (r : UserRec)
    (medName medTime : String) : UserRec × Bool :=
  callbackAckTz (resolveTz zones r.timezone) nowUtc r medName medTime

/-- `add_medicine`: with fewer than three arguments reply with usage and store
nothing; otherwise append `{name := args[0], dosage := args[1],
times := args[2:], acknowledged := {}}` and persist.  The boolean is "the
record was persisted". -/
def add_medicine (r : UserRec) (args : List String) : UserRec × Bool :=
  match args with
  | name :: dosage :: t :: ts =>
    ({ r with medications := r.medications ++
        [{ name := name, dosage := dosage, times := t :: ts,
           acknowledged := [], last_reminder_time := none }] }, true)
  | _ => (r, false)

/-- `delete_medicine`: keep the medications whose lowercased name differs from
the lowercased argument; when nothing was removed reply not-found and store
nothing, otherwise persist the filtered record. -/
def delete_medicine (r : UserRec) (args : List String) : UserRec × Bool :=
  match args with
  | [] => (r, false)
  | name :: _ =>
    let meds := r.medications
    let newMeds := meds.filter (fun m => !(lowerStr m.name = lowerStr name))
    if newMeds.length = meds.length then (r, false)
    else ({ r with medications := newMeds }, true)

/-- `set_timezone`: with an argument, overwrite the `timezone` field with it
unconditionally and persist. -/
def set_timezone (r : UserRec) (args : List String) : UserRec × Bool :=
  match args with
  | [] => (r, false)
  | tz :: _ => ({ r with timezone := tz }, true)

/-- `set_language`: lowercase the argument, reject it with a usage reply (and
no write) unless it is `"ru"` or `"en"`, otherwise overwrite `language` with
the lowercased value and persist. -/
def set_language (r : UserRec) (args : List String) : UserRec × Bool :=
  match args with
  | [] => (r, false)
  | l :: _ =>
    let newLang := lowerStr l
    if newLang = "ru" ∨ newLang = "en" then
      ({ r with language := newLang }, true)
    else (r, false)

/-! Concrete sample data, used to instantiate the theorems below. -/

/-- The spec's Scenario A medication. -/
def wAspirin : Medication :=
  { name := "Aspirin", dosage := "500mg", times := ["09:00"],
    acknowledged := [], last_reminder_time := none }

/-- A medication with two distinct fire times on the same day. -/
def wVitamin : Medication :=
  { name := "Vitamin D", dosage := "1000IU", times := ["08:00", "20:00"],
    acknowledged := [], last_reminder_time := none }

/-- A timezone environment in which only `"UTC"` resolves (offset 0). -/
def wZones : Zones := fun s => if s = "UTC" then some 0 else none

/-- A user with a resolvable timezone. -/
def wUser : UserRec :=
  { chat_id := "100", timezone := "UTC", language := "ru",
    medications := [wAspirin] }

/-- A user whose stored timezone string does not resolve. -/
def wBadTz : UserRec :=
  { chat_id := "101", timezone := "Mars/Olympus", language := "en",
    medications := [wAspirin] }

/-! Helper lemmas. -/

lemma fireAttempt_eq_ite (n d : Int) (med : Medication) (s : List Dispatch)
    (t : String) :
    fireAttempt n d med s t =
      if schedReached n d t then
        ({ med with last_reminder_time := some (.iso n) }, s ++ [(med.name, t)])
      else (med, s) := by
  unfold fireAttempt schedReached
  cases hp : parseHM t with
  | none => simp
  | some hm =>
    obtain ⟨h, m⟩ := hm
    by_cases hcmp : n < d * 1440 + ((h : Int) * 60 + (m : Int))
    · simp [hcmp, not_le.mpr hcmp]
    · simp [hcmp, not_lt.mp hcmp]

lemma stepTime_eq_ite (n d : Int) (med : Medication) (s : List Dispatch)
    (t : String) :
    stepTime n d (med, s) t =
      if specDue n d med t then
        ({ med with last_reminder_time := some (.iso n) }, s ++ [(med.name, t)])
      else (med, s) := by
  unfold stepTime specDue
  by_cases hack : lookupAck med.acknowledged t = some d
  · simp [hack]
  · cases hlr : med.last_reminder_time with
    | none => simp [hack, hlr, notRemindedToday, fireAttempt_eq_ite]
    | some lr =>
      cases lr with
      | iso v =>
        by_cases hd : localDate v = d
        · simp [hack, hlr, notRemindedToday, parseLastRem, hd]
        · simp [hack, hlr, notRemindedToday, parseLastRem, hd,
            fireAttempt_eq_ite]
      | garbage s2 =>
        simp [hack, hlr, notRemindedToday, parseLastRem, fireAttempt_eq_ite]

lemma specDue_mono {n d : Int} {med : Medication} {t : String} (n' : Int)
    (h : specDue n d med t = true) (hle : n ≤ n') :
    specDue n' d med t = true := by
  simp only [specDue, Bool.and_eq_true] at h ⊢
  obtain ⟨⟨ha, hb⟩, hc⟩ := h
  refine ⟨⟨ha, hb⟩, ?_⟩
  unfold schedReached at hc ⊢
  cases hp : parseHM t with
  | none => exact absurd hc (by simp [hp])
  | some hm =>
    obtain ⟨hh, mm⟩ := hm
    rw [hp] at hc
    simp only [decide_eq_true_eq] at hc ⊢
    omega

lemma stepTime_stamped (n d : Int) {med : Medication} {v : Int}
    (h : med.last_reminder_time = some (.iso v)) (hd : localDate v = d)
    (s : List Dispatch) (t : String) :
    stepTime n d (med, s) t = (med, s) := by
  rw [stepTime_eq_ite]
  have hdue : specDue n d med t = false := by
    simp [specDue, notRemindedToday, h, parseLastRem, hd]
  simp [hdue]

lemma foldl_stepTime_stamped (n d : Int) {med : Medication} {v : Int}
    (h : med.last_reminder_time = some (.iso v)) (hd : localDate v = d) :
    ∀ (ts : List String) (s : List Dispatch),
      ts.foldl (stepTime n d) (med, s) = (med, s) := by
  intro ts
  induction ts with
  | nil => intro s; rfl
  | cons t ts ih =>
    intro s
    rw [List.foldl_cons, stepTime_stamped n d h hd s t]
    exact ih s

lemma processMed_stamped (n d : Int) {med : Medication} {v : Int}
    (h : med.last_reminder_time = some (.iso v)) (hd : localDate v = d) :
    processMed n d med = (med, []) :=
  foldl_stepTime_stamped n d h hd med.times []

lemma foldl_stepTime_cases (n d : Int) (hdate : localDate n = d) :
    ∀ (ts : List String) (med : Medication) (s : List Dispatch),
      ts.foldl (stepTime n d) (med, s) = (med, s) ∨
      ∃ t, ts.foldl (stepTime n d) (med, s) =
        ({ med with last_reminder_time := some (.iso n) },
         s ++ [(med.name, t)]) := by
  intro ts
  induction ts with
  | nil => intro med s; left; rfl
  | cons t ts ih =>
    intro med s
    rw [List.foldl_cons, stepTime_eq_ite]
    by_cases hdue : specDue n d med t = true
    · right
      refine ⟨t, ?_⟩
      rw [if_pos hdue]
      exact foldl_stepTime_stamped n d rfl hdate ts _
    · rw [if_neg hdue]
      exact ih med s

/-! Claim theorems. -/

/-- C1: at every evaluation point of the sweep's inner loop (`stepTime`, the
body folded by `processMed` inside `sweep`), a fire time is judged due — the
reminder is dispatched and the stamp written — if and only if the flat
conjunction `specDue` holds: the acknowledged date for the fire time is not
today, `last_reminder_time` (when present and parseable) is not dated today,
and the local now is at or after today's date at that HH:MM.  Moreover the
due condition has no upper bound: once due it stays due for any later local
now on the same local date. -/
theorem due_iff_spec_conjunction (nowLocal today : Int) (med : Medication)
    (sent : List Dispatch) (t : String) :
    (stepTime nowLocal today (med, sent) t =
      if specDue nowLocal today med t then
        ({ med with last_reminder_time := some (.iso nowLocal) },
         sent ++ [(med.name, t)])
      else (med, sent)) ∧
    (∀ later, specDue nowLocal today med t = true → nowLocal ≤ later →
      specDue later today med t = true) :=
  ⟨stepTime_eq_ite nowLocal today med sent t,
   fun later h hle => specDue_mono later h hle⟩

theorem due_iff_spec_conjunction_witness :
    (stepTime 540 0 (wAspirin, []) "09:00" =
      if specDue 540 0 wAspirin "09:00" then
        ({ wAspirin with last_reminder_time := some (.iso 540) },
         [(wAspirin.name, "09:00")])
      else (wAspirin, [])) ∧
    specDue 600 0 wAspirin "09:00" = true :=
  ⟨(due_iff_spec_conjunction 540 0 wAspirin [] "09:00").1,
   (due_iff_spec_conjunction 540 0 wAspirin [] "09:00").2 600 (by decide)
     (by decide)⟩

/-- C2: per medication, one sweep pass (`processMed`, the per-medication body
of `send_reminders_async`) dispatches at most one reminder; when it
dispatches, the medication leaves with `last_reminder_time` stamped with the
local now — the stamp is written when the send is scheduled, not when it is
confirmed — and any further pass on the same local calendar date dispatches
zero reminders for that medication and leaves it unchanged. -/
theorem reminder_at_most_once_per_day (nowLocal today : Int) (med : Medication)
    (hdate : localDate nowLocal = today) :
    (processMed nowLocal today med).2.length ≤ 1 ∧
    ((processMed nowLocal today med).2 ≠ [] →
      (processMed nowLocal today med).1.last_reminder_time =
        some (.iso nowLocal) ∧
      ∀ now2, localDate now2 = today →
        processMed now2 today (processMed nowLocal today med).1 =
          ((processMed nowLocal today med).1, [])) := by
  rcases foldl_stepTime_cases nowLocal today hdate med.times med [] with h | ⟨t, h⟩
  · unfold processMed
    rw [h]
    exact ⟨by simp, fun hne => absurd rfl hne⟩
  · unfold processMed
    rw [h]
    refine ⟨by simp, fun _ => ⟨rfl, fun now2 hd2 => ?_⟩⟩
    exact processMed_stamped now2 today rfl hdate

theorem reminder_at_most_once_per_day_witness :
    (processMed 540 0 wAspirin).2.length ≤ 1 ∧
    (processMed 540 0 wAspirin).1.last_reminder_time = some (.iso 540) ∧
    processMed 545 0 (processMed 540 0 wAspirin).1 =
      ((processMed 540 0 wAspirin).1, []) := by
  have H := reminder_at_most_once_per_day 540 0 wAspirin (by decide)
  exact ⟨H.1, (H.2 (by decide)).1, (H.2 (by decide)).2 545 (by decide)⟩

/-- C3: `last_reminder_time` is one field shared by all fire times of a
medication, so for a medication with two distinct fire times, both due on the
same local date (neither acknowledged, no reminder stamp dated today), the
sweep dispatches a reminder only for the first time in list order and stamps
the medication; afterwards any sweep pass on the same local date — in
particular one at or after the second fire time — dispatches nothing for that
medication. -/
theorem shared_stamp_suppresses_other_times (nowLocal today : Int)
    (med : Medication) (t1 t2 : String)
    (htimes : med.times = [t1, t2]) (_hne : t1 ≠ t2)
    (hdate : localDate nowLocal = today)
    (h1 : specDue nowLocal today med t1 = true)
    (_h2 : specDue nowLocal today med t2 = true) :
    processMed nowLocal today med =
      ({ med with last_reminder_time := some (.iso nowLocal) },
       [(med.name, t1)]) ∧
    ∀ now2, localDate now2 = today →
      processMed now2 today
          { med with last_reminder_time := some (.iso nowLocal) } =
        ({ med with last_reminder_time := some (.iso nowLocal) }, []) := by
  constructor
  · unfold processMed
    rw [htimes, List.foldl_cons, stepTime_eq_ite, if_pos h1, List.foldl_cons,
      stepTime_stamped nowLocal today rfl hdate, List.foldl_nil]
    simp [htimes]
  · intro now2 hd2
    exact processMed_stamped now2 today rfl hdate

theorem shared_stamp_suppresses_other_times_witness :
    processMed 1230 0 wVitamin =
      ({ wVitamin with last_reminder_time := some (.iso 1230) },
       [(wVitamin.name, "08:00")]) ∧
    processMed 1235 0 { wVitamin with last_reminder_time := some (.iso 1230) } =
      ({ wVitamin with last_reminder_time := some (.iso 1230) }, []) := by
  have H := shared_stamp_suppresses_other_times 1230 0 wVitamin "08:00" "20:00"
    (by decide) (by decide) (by decide) (by decide) (by decide)
  exact ⟨H.1, H.2 1235 (by decide)⟩

lemma ackLoop_of_forall_not (n t : String) (d : Int) :
    ∀ meds, (∀ m ∈ meds, ¬ ackMatches n t m) →
      ackLoop n t d meds = (meds, false) := by
  intro meds
  induction meds with
  | nil => intro _; rfl
  | cons med rest ih =>
    intro h
    have hm : ¬ ackMatches n t med := h med (List.mem_cons_self med rest)
    simp [ackLoop, hm, ih (fun m hmem => h m (List.mem_cons_of_mem med hmem))]

lemma ackLoop_found_iff (n t : String) (d : Int) :
    ∀ meds, ((ackLoop n t d meds).2 = true ↔ ∃ m ∈ meds, ackMatches n t m) := by
  intro meds
  induction meds with
  | nil => simp [ackLoop]
  | cons med rest ih =>
    by_cases hm : ackMatches n t med
    · simp [ackLoop, hm]
    · simp [ackLoop, hm, ih]

lemma ackLoop_at (n t : String) (d : Int) (med : Medication)
    (hm : ackMatches n t med) :
    ∀ pre post, (∀ m ∈ pre, ¬ ackMatches n t m) →
      ackLoop n t d (pre ++ med :: post) =
        (pre ++ { med with acknowledged := setAck med.acknowledged t d } :: post,
         true) := by
  intro pre
  induction pre with
  | nil => intro post _; simp [ackLoop, hm]
  | cons p pre ih =>
    intro post h
    have hp : ¬ ackMatches n t p := h p (List.mem_cons_self p pre)
    simp [ackLoop, hp, ih post (fun m hmem => h m (List.mem_cons_of_mem p hmem))]

lemma setAck_idem :
    ∀ (a : List (String × Int)) (t : String) (d : Int),
      setAck (setAck a t d) t d = setAck a t d := by
  intro a t d
  induction a with
  | nil => simp [setAck]
  | cons kv rest ih =>
    obtain ⟨k, v⟩ := kv
    by_cases hk : k = t
    · simp [setAck, hk]
    · simp [setAck, hk, ih]

lemma ackLoop_idem (n t : String) (d : Int) :
    ∀ meds, ackLoop n t d (ackLoop n t d meds).1 = ackLoop n t d meds := by
  intro meds
  induction meds with
  | nil => rfl
  | cons med rest ih =>
    by_cases hm : ackMatches n t med
    · have hm2 : ackMatches n t
          { med with acknowledged := setAck med.acknowledged t d } := hm
      simp [ackLoop, hm, hm2, setAck_idem]
    · simp [ackLoop, hm, ih]

/-- C4: the acknowledgment handler matches the medication by case-insensitive
name with the fire time among its configured times; it reports `found = true`
exactly when some medication matches, on a miss it returns the record
unmutated (and, the returned boolean being the persistence flag, persists
nothing), and on a match it updates the first matching medication's
`acknowledged[fireTime]` to today's local date and persists the record. -/
theorem ack_found_iff_and_frame (zones : Zones) (nowUtc : Int) (r : UserRec)
    (medName medTime : String) :
    ((callback_acknowledge zones nowUtc r medName medTime).2 = true ↔
      ∃ m ∈ r.medications, ackMatches medName medTime m) ∧
    ((∀ m ∈ r.medications, ¬ ackMatches medName medTime m) →
      callback_acknowledge zones nowUtc r medName medTime = (r, false)) ∧
    (∀ pre med post, r.medications = pre ++ med :: post →
      (∀ m ∈ pre, ¬ ackMatches medName medTime m) →
      ackMatches medName medTime med →
      callback_acknowledge zones nowUtc r medName medTime =
        ({ r with medications := pre ++ { med with acknowledged := setAck med.acknowledged medTime (localDate (nowUtc + resolveTz zones r.timezone)) } :: post },
         true)) := by
  refine ⟨?_, ?_, ?_⟩
  · unfold callback_acknowledge callbackAckTz
    rw [← ackLoop_found_iff medName medTime
      (localDate (nowUtc + resolveTz zones r.timezone)) r.medications]
    by_cases hb : (ackLoop medName medTime
        (localDate (nowUtc + resolveTz zones r.timezone)) r.medications).2 = true
    · simp [hb]
    · simp [hb]
  · intro h
    unfold callback_acknowledge callbackAckTz
    simp [ackLoop_of_forall_not medName medTime
      (localDate (nowUtc + resolveTz zones r.timezone)) r.medications h]
  · intro pre med post hsplit hpre hm
    unfold callback_acknowledge callbackAckTz
    rw [hsplit]
    simp [ackLoop_at medName medTime
      (localDate (nowUtc + resolveTz zones r.timezone)) med hm pre post hpre]

theorem ack_found_iff_and_frame_witness :
    ((callback_acknowledge wZones 600 wUser "aspirin" "09:00").2 = true ↔
      ∃ m ∈ wUser.medications, ackMatches "aspirin" "09:00" m) ∧
    callback_acknowledge wZones 600 wUser "aspirin" "10:00" = (wUser, false) ∧
    callback_acknowledge wZones 600 wUser "aspirin" "09:00" =
      ({ wUser with medications :=
          [{ wAspirin with acknowledged := [("09:00", 0)] }] }, true) := by
  refine ⟨(ack_found_iff_and_frame wZones 600 wUser "aspirin" "09:00").1,
    (ack_found_iff_and_frame wZones 600 wUser "aspirin" "10:00").2.1 (by decide),
    ?_⟩
  have H := (ack_found_iff_and_frame wZones 600 wUser "aspirin" "09:00").2.2
    [] wAspirin [] rfl (by simp) (by decide)
  simpa using H

/-- C5: acknowledgment is idempotent — running `callback_acknowledge` a second
time with identical arguments, starting from the record the first run stored,
returns exactly the first run's stored record (and the same `found` flag). -/
theorem ack_idempotent (zones : Zones) (nowUtc : Int) (r : UserRec)
    (medName medTime : String) :
    callback_acknowledge zones nowUtc
        (callback_acknowledge zones nowUtc r medName medTime).1 medName medTime =
      callback_acknowledge zones nowUtc r medName medTime := by
  unfold callback_acknowledge callbackAckTz
  by_cases hb : (ackLoop medName medTime
      (localDate (nowUtc + resolveTz zones r.timezone)) r.medications).2 = true
  · simp only [hb, if_true]
    have hidem := ackLoop_idem medName medTime
      (localDate (nowUtc + resolveTz zones r.timezone)) r.medications
    simp [hidem, hb]
  · simp [hb]

/-- C6 counterexample: `add_medicine` performs no duplicate check — starting
from a record whose medication names are case-insensitively unique, adding a
medication whose name collides up to case yields two entries with
case-insensitively equal names, so case-insensitive uniqueness of `name` is
not preserved by the add-medicine command. -/
theorem name_uniqueness_not_preserved_cex :
    (wUser.medications.map (fun m => lowerStr m.name)).Nodup ∧
    ¬ (((add_medicine wUser ["aspirin", "100mg", "10:00"]).1.medications.map
        (fun m => lowerStr m.name)).Nodup) := by decide

/-- C6 amended: the medication name is used as a case-insensitive matching
key by delete and acknowledge, but uniqueness is not an enforced invariant:
with sufficient arguments, `add_medicine` appends the new entry
unconditionally — regardless of any existing entry with the same name — and
persists the record. -/
theorem add_medicine_appends_unconditionally (r : UserRec)
    (name dosage t : String) (ts : List String) :
    add_medicine r (name :: dosage :: t :: ts) =
      ({ r with medications := r.medications ++ [{ name := name, dosage := dosage, times := t :: ts, acknowledged := [], last_reminder_time := none }] },
       true) := rfl

/-- C7 counterexample: `set_language` does validate at write time — invoked
with argument `"fr"` it leaves the stored record unmutated and persists
nothing, instead of overwriting the language field with `"fr"`. -/
theorem set_language_validates_cex :
    set_language wUser ["fr"] = (wUser, false) ∧ wUser.language = "ru" := by
  decide

/-- C7 amended: `set_timezone` overwrites the timezone field unconditionally
with the supplied value (no validation at write time); `set_language`
lowercases its argument and overwrites the language field only when the
result is `"ru"` or `"en"`, otherwise it replies with usage and neither
mutates nor persists the record. -/
theorem set_commands_write_behavior (r : UserRec) :
    (∀ tz rest, set_timezone r (tz :: rest) = ({ r with timezone := tz }, true)) ∧
    (∀ l rest, (lowerStr l = "ru" ∨ lowerStr l = "en") →
      set_language r (l :: rest) = ({ r with language := lowerStr l }, true)) ∧
    (∀ l rest, lowerStr l ≠ "ru" → lowerStr l ≠ "en" →
      set_language r (l :: rest) = (r, false)) := by
  refine ⟨fun tz rest => rfl, fun l rest h => ?_, fun l rest h1 h2 => ?_⟩
  · rcases h with h | h <;> simp [set_language, h]
  · simp [set_language, h1, h2]

theorem set_commands_write_behavior_witness :
    set_timezone wUser ["Mars/Olympus"] =
      ({ wUser with timezone := "Mars/Olympus" }, true) ∧
    set_language wUser ["EN"] = ({ wUser with language := lowerStr "EN" }, true) ∧
    set_language wUser ["de"] = (wUser, false) :=
  ⟨(set_commands_write_behavior wUser).1 "Mars/Olympus" [],
   (set_commands_write_behavior wUser).2.1 "EN" [] (by decide),
   (set_commands_write_behavior wUser).2.2 "de" [] (by decide) (by decide)⟩

/-- C8: when the stored timezone string does not resolve to a zone, both the
reminder sweep and the acknowledgment handler compute local time with offset
0, i.e. fall back to UTC — the computation is total, no error is raised. -/
theorem invalid_timezone_falls_back_to_utc (zones : Zones) (nowUtc : Int)
    (r : UserRec) (medName medTime : String) (h : zones r.timezone = none) :
    processUser zones nowUtc r = processUserTz 0 nowUtc r ∧
    callback_acknowledge zones nowUtc r medName medTime =
      callbackAckTz 0 nowUtc r medName medTime := by
  have hz : resolveTz zones r.timezone = 0 := by simp [resolveTz, h]
  exact ⟨by unfold processUser; rw [hz],
         by unfold callback_acknowledge; rw [hz]⟩

theorem invalid_timezone_falls_back_to_utc_witness :
    processUser wZones 540 wBadTz = processUserTz 0 540 wBadTz ∧
    callback_acknowledge wZones 540 wBadTz "Aspirin" "09:00" =
      callbackAckTz 0 540 wBadTz "Aspirin" "09:00" :=
  invalid_timezone_falls_back_to_utc wZones 540 wBadTz "Aspirin" "09:00"
    (by decide)

/-- C9: when some medication's name matches the argument case-insensitively,
`delete_medicine` keeps exactly the non-matching entries — every matching
entry is removed whole, with all its times, acknowledgments and reminder
stamp, and nothing else changes — and persists; when no name matches it
reports not-found and persists nothing, returning the record unmutated. -/
theorem delete_removes_all_matching (r : UserRec) (name : String)
    (rest : List String) :
    ((∃ m ∈ r.medications, lowerStr m.name = lowerStr name) →
      delete_medicine r (name :: rest) =
        ({ r with medications := r.medications.filter (fun m => !(lowerStr m.name = lowerStr name)) },
         true)) ∧
    ((∀ m ∈ r.medications, lowerStr m.name ≠ lowerStr name) →
      delete_medicine r (name :: rest) = (r, false)) ∧
    (∀ m ∈ (delete_medicine r (name :: rest)).1.medications,
      lowerStr m.name ≠ lowerStr name ∨ m ∈ r.medications) := by
  refine ⟨?_, ?_, ?_⟩
  · rintro ⟨m, hmem, hm⟩
    unfold delete_medicine
    have hne : (r.medications.filter
        (fun m => !(lowerStr m.name = lowerStr name))).length ≠
        r.medications.length := by
      intro hlen
      have heq := (List.filter_sublist r.medications).eq_of_length hlen
      have := (List.filter_eq_self.mp heq) m hmem
      simp [hm] at this
    simp [hne]
  · intro h
    unfold delete_medicine
    have heq : r.medications.filter
        (fun m => !(lowerStr m.name = lowerStr name)) = r.medications :=
      List.filter_eq_self.mpr (fun m hm => by simp [h m hm])
    simp [heq]
  · intro m hm
    simp only [delete_medicine] at hm
    by_cases hlen : (r.medications.filter
        (fun m => !(lowerStr m.name = lowerStr name))).length =
        r.medications.length
    · simp only [hlen, if_true, if_pos] at hm
      exact Or.inr hm
    · rw [if_neg hlen] at hm
      have h2 : m ∈ r.medications.filter
          (fun m => !(lowerStr m.name = lowerStr name)) := hm
      exact Or.inl (by simpa using (List.mem_filter.mp h2).2)

theorem delete_removes_all_matching_witness :
    delete_medicine wUser ["ASPIRIN"] =
      ({ wUser with medications := wUser.medications.filter (fun m => !(lowerStr m.name = lowerStr "ASPIRIN")) },
       true) ∧
    delete_medicine wUser ["Tylenol"] = (wUser, false) :=
  ⟨(delete_removes_all_matching wUser "ASPIRIN" []).1 (by decide),
   (delete_removes_all_matching wUser "Tylenol" []).2.1 (by decide)⟩

lemma processUser_chat_id (zones : Zones) (nowUtc : Int) (u : UserRec) :
    (processUser zones nowUtc u).1.chat_id = u.chat_id := rfl

lemma sweep_fold (zones : Zones) (nowUtc : Int) :
    ∀ (users : List UserRec) (w : List UserRec) (s : List (String × Dispatch)),
      users.foldl (fun acc u =>
        (acc.1 ++ (if (processUser zones nowUtc u).2.isEmpty then []
                   else [(processUser zones nowUtc u).1]),
         acc.2 ++ (processUser zones nowUtc u).2)) (w, s) =
      (w ++ users.filterMap (fun u =>
          if (processUser zones nowUtc u).2.isEmpty then none
          else some (processUser zones nowUtc u).1),
       s ++ (users.map (fun u => (processUser zones nowUtc u).2)).flatten) := by
  intro users
  induction users with
  | nil => intro w s; simp
  | cons u us ih =>
    intro w s
    rw [List.foldl_cons, ih]
    by_cases he : (processUser zones nowUtc u).2.isEmpty
    · have he' : (processUser zones nowUtc u).2 = [] := by simpa using he
      simp [List.filterMap_cons, he, he']
    · have he' : ¬ (processUser zones nowUtc u).2 = [] := by simpa using he
      simp [List.filterMap_cons, he, he']

lemma sweep_writes_chatids_sublist (zones : Zones) (nowUtc : Int) :
    ∀ users : List UserRec,
      ((users.filterMap (fun u =>
          if (processUser zones nowUtc u).2.isEmpty then none
          else some (processUser zones nowUtc u).1)).map UserRec.chat_id).Sublist
        (users.map UserRec.chat_id) := by
  intro users
  induction users with
  | nil => simp
  | cons u us ih =>
    by_cases he : (processUser zones nowUtc u).2.isEmpty
    · simp only [List.filterMap_cons, he, if_true, List.map_cons]
      exact List.Sublist.cons _ ih
    · simp only [List.filterMap_cons, he, if_false, List.map_cons,
        processUser_chat_id]
      exact List.Sublist.cons₂ _ ih

/-- C10: one sweep issues at most one store write per user — `sweep`'s list
of persisted records selects, per scanned user in order, the post-processing
record exactly when that user had some reminder dispatched (the only mutation
the loop performs), so a user with nothing due contributes no write, and with
distinct chat ids every chat id is written at most once. -/
theorem sweep_persists_each_user_at_most_once (zones : Zones) (nowUtc : Int)
    (users : List UserRec) :
    ((sweep zones nowUtc users).1 = users.filterMap (fun u =>
        if (processUser zones nowUtc u).2.isEmpty then none
        else some (processUser zones nowUtc u).1)) ∧
    (((sweep zones nowUtc users).1.map UserRec.chat_id).Sublist
      (users.map UserRec.chat_id)) ∧
    ((users.map UserRec.chat_id).Nodup →
      ∀ c, List.count c ((sweep zones nowUtc users).1.map UserRec.chat_id) ≤ 1) := by
  have h1 : (sweep zones nowUtc users).1 = users.filterMap (fun u =>
      if (processUser zones nowUtc u).2.isEmpty then none
      else some (processUser zones nowUtc u).1) := by
    unfold sweep
    rw [sweep_fold zones nowUtc users [] []]
    simp
  have h2 : ((sweep zones nowUtc users).1.map UserRec.chat_id).Sublist
      (users.map UserRec.chat_id) := by
    rw [h1]
    exact sweep_writes_chatids_sublist zones nowUtc users
  refine ⟨h1, h2, fun hnd c => ?_⟩
  exact List.nodup_iff_count_le_one.mp (List.Nodup.sublist h2 hnd) c

theorem sweep_persists_each_user_at_most_once_witness :
    List.count "100" ((sweep wZones 540 [wUser, wBadTz]).1.map UserRec.chat_id) ≤ 1 :=
  (sweep_persists_each_user_at_most_once wZones 540 [wUser, wBadTz]).2.2
    (by decide) "100"

end PillSync
